import Mathlib

/-!
# VillaOlympics — verification of the scoreboard core

Shallow embedding of the scoreboard state model, ranking rule, progress
animation and layout sizing of the VillaOlympics repository, together with
proofs of the specification claims about them.

Two implementations are embedded:

* `VillaOlympics.Pygame` — the desktop app
  (`VillaOlympicsPygame/main.py`; `VillaOlympics/main.py` is an older copy of
  the same core with identical `Scoreboard` code and fixed lane sizing).
* `VillaOlympics.WebApp` — the Streamlit app (`VillaOlympicsWebApp/app.py`).

Python floats are modelled as rationals (`ℚ`); all score arithmetic in the
source is exact on the values of interest.  Python strings are modelled as
Lean `String`s, with `str.strip`, `str.lower` and string comparison embedded
explicitly over the character list so that every definition is executable by
the kernel.
-/

namespace VillaOlympics

/-- Scores are Python floats in the source; modelled as rationals. -/
abbrev Score := ℚ

/-- Embedding of Python `str.strip()`: remove leading and trailing
whitespace characters. -/
def pyStrip (s : String) : String :=
  ⟨((s.data.dropWhile Char.isWhitespace).reverse.dropWhile Char.isWhitespace).reverse⟩

/-- Embedding of Python `str.lower()` (viewed as a character list): lower-case
every character. -/
def pyLower (s : String) : List Char := s.data.map Char.toLower

/-- Embedding of Python string `<=`: lexicographic comparison of the character
sequences by code point. -/
def charListLe : List Char → List Char → Bool
  | [], _ => true
  | _ :: _, [] => false
  | a :: as, b :: bs => if a = b then charListLe as bs else decide (a < b)

theorem charListLe_refl (l : List Char) : charListLe l l = true := by
  induction l with
  | nil => rfl
  | cons a as ih => simp [charListLe, ih]

theorem charListLe_total (a b : List Char) :
    charListLe a b = true ∨ charListLe b a = true := by
  induction a generalizing b with
  | nil => exact Or.inl rfl
  | cons x xs ih =>
    cases b with
    | nil => exact Or.inr rfl
    | cons y ys =>
      by_cases hxy : x = y
      · subst hxy
        rcases ih ys with h | h
        · exact Or.inl (by simp [charListLe, h])
        · exact Or.inr (by simp [charListLe, h])
      · rcases lt_or_gt_of_ne hxy with hlt | hgt
        · exact Or.inl (by simp [charListLe, hxy, hlt])
        · refine Or.inr ?_
          have hne : y ≠ x := fun h => hxy h.symm
          simp [charListLe, hne, hgt]

theorem charListLe_trans {a b c : List Char} (hab : charListLe a b = true)
    (hbc : charListLe b c = true) : charListLe a c = true := by
  induction a generalizing b c with
  | nil => rfl
  | cons x xs ih =>
    cases b with
    | nil => simp [charListLe] at hab
    | cons y ys =>
      cases c with
      | nil => simp [charListLe] at hbc
      | cons z zs =>
        by_cases hxy : x = y
        · subst hxy
          by_cases hyz : x = z
          · subst hyz
            simp only [charListLe, if_pos rfl] at hab hbc ⊢
            exact ih hab hbc
          · simp only [charListLe, if_pos rfl] at hab
            simp only [charListLe, if_neg hyz] at hbc ⊢
            exact hbc
        · by_cases hyz : y = z
          · subst hyz
            simp only [charListLe, if_neg hxy] at hab ⊢
            exact hab
          · simp only [charListLe, if_neg hxy] at hab
            simp only [charListLe, if_neg hyz] at hbc
            have h1 : x < y := of_decide_eq_true hab
            have h2 : y < z := of_decide_eq_true hbc
            have h3 : x < z := lt_trans h1 h2
            simp [charListLe, ne_of_lt h3, h3]

/-- A CSV record as seen by either loader.  The score cell is a string in the
source; parsing with Python `float` / pandas `to_numeric(errors="coerce")` is
modelled by an `Option Score`: `some q` for a cell that parses to `q`,
`none` for a cell that fails to parse. -/
structure CsvRecord where
  name : String
  pts : Option Score
  avatar : String
deriving DecidableEq

namespace Pygame

/-- Constant `EASING_SPEED = 6.0` from `main.py`. -/
def EASING_SPEED : Score := 6

/-- Local constant `max_pts = 100.0` of `Scoreboard.set_target_progresses`
("Fixed finish line at 100 points"). -/
def MAX_PTS : Score := 100

/-- State of `Player.__init__`: `name`, `points`, `avatar_path`, and the race
progress target/current pair (both initialised to `0.0`).  The loaded avatar
surface is renderer state and is not modelled. -/
structure Player where
  name : String
  points : Score
  avatar_path : String
  progress_target : Score
  progress_current : Score
deriving DecidableEq

/-- Constructor call `Player(name, pts, avatar)`: progress fields start at `0.0`. -/
def mkPlayer (name : String) (points : Score) (avatar : String) : Player :=
  ⟨name, points, avatar, 0, 0⟩

/-- Structure `Scoreboard` holds the roster (`self.players`); `last_loaded` is a wall
clock timestamp and is not modelled. -/
structure Scoreboard where
  players : List Player
deriving DecidableEq

/-- The row loop of `Scoreboard.load_from_csv`: strip the name, skip the
record if the stripped name is empty, otherwise parse the points cell
(`float(pts_str)` with `except: pts = 0.0`) and append a fresh `Player`. -/
def parseRows : List CsvRecord → List Player
  | [] => []
  | r :: rest =>
    if pyStrip r.name = "" then parseRows rest
    else mkPlayer (pyStrip r.name) (r.pts.getD 0) (pyStrip r.avatar) :: parseRows rest

/-- Method `Scoreboard.load_from_csv(path)`: if the file is absent
(`not os.path.isfile(path)`) return early, leaving `self.players` untouched;
otherwise replace the roster with the parsed rows.  The data source is
modelled as `Option (List CsvRecord)` (`none` = missing file). -/
def load_from_csv (src : Option (List CsvRecord)) (sb : Scoreboard) : Scoreboard :=
  match src with
  | none => sb
  | some rows => ⟨parseRows rows⟩

/-- Method `Scoreboard.set_target_progresses`: early return on an empty roster,
otherwise set every `progress_target` to
`0.0 if max_pts <= 0 else p.points / max_pts`.  Note: no clamping. -/
def set_target_progresses (sb : Scoreboard) : Scoreboard :=
  if sb.players = [] then sb
  else ⟨sb.players.map fun p =>
    { p with progress_target := if MAX_PTS ≤ 0 then 0 else p.points / MAX_PTS }⟩

/-- The per-player body of `Scoreboard.update_animation`:
`p.progress_current += (p.progress_target - p.progress_current) * min(1.0, EASING_SPEED * dt)`. -/
def stepCurrent (target current dt : Score) : Score :=
  current + (target - current) * min 1 (EASING_SPEED * dt)

/-- Method `Scoreboard.update_animation(dt)`: apply the smoothing step to every
player. -/
def update_animation (dt : Score) (sb : Scoreboard) : Scoreboard :=
  ⟨sb.players.map fun p =>
    { p with progress_current := stepCurrent p.progress_target p.progress_current dt }⟩

/-- The sort key comparison underlying `sort_for_leaderboard`'s
`key=lambda p: (-p.points, p.name.lower())`: tuple order, i.e. higher points
first, ties by lower-cased name ascending. -/
def rankLeB (p q : Player) : Bool :=
  decide (q.points < p.points) ||
    (decide (p.points = q.points) && charListLe (pyLower p.name) (pyLower q.name))

/-- Propositional form of `rankLeB`. -/
def rankLe (p q : Player) : Prop := rankLeB p q = true

instance : DecidableRel rankLe := fun p q => by unfold rankLe; infer_instance

/-- Method `Scoreboard.sort_for_leaderboard`: Python's `sorted` is a stable sort on
the key; modelled by Mathlib's stable `insertionSort` on the corresponding
total preorder. -/
def sort_for_leaderboard (sb : Scoreboard) : List Player :=
  List.insertionSort rankLe sb.players

/-- Method `App.reset_animation`: set every `progress_current` to `0.0`. -/
def reset_animation (sb : Scoreboard) : Scoreboard :=
  ⟨sb.players.map fun p => { p with progress_current := 0 }⟩

/-- The increment-button handler in `App.handle_events`
(`player.points += delta` followed by `self.sb.set_target_progresses()`);
the clicked button identifies the player by roster position.  Note: no
clamping of the new score. -/
def bumpAt : List Player → ℕ → Score → List Player
  | [], _, _ => []
  | p :: ps, 0, d => { p with points := p.points + d } :: ps
  | p :: ps, Nat.succ n, d => p :: bumpAt ps n d

/-- A click on button `(i, delta)`: bump the points and recompute targets. -/
def handle_click (sb : Scoreboard) (i : ℕ) (delta : Score) : Scoreboard :=
  set_target_progresses ⟨bumpAt sb.players i delta⟩

/-- The dynamic lane sizing of `App.draw_race` (constants
`min_lane_h = 40`, `max_lane_h = 90`, `min_gap = 6`, `max_gap = 18`):
for `n > 0`,
`lane_h = min(max_lane_h, max(min_lane_h, (available_height - (n-1)*min_gap) // n))` and
`gap = min(max_gap, max(min_gap, (available_height - n*lane_h) // max(1, n-1)))`;
for `n = 0` the maxima.  Python `//` on ints is floor division, `Int.fdiv`. -/
def laneGeometry (n : ℕ) (available_height : ℤ) : ℤ × ℤ :=
  if 0 < n then
    let lane_h : ℤ := min 90 (max 40 ((available_height - ((n : ℤ) - 1) * 6).fdiv (n : ℤ)))
    let gap : ℤ := min 18 (max 6 ((available_height - (n : ℤ) * lane_h).fdiv (max 1 ((n : ℤ) - 1))))
    (lane_h, gap)
  else (90, 18)

/-- The dynamic row sizing of `App.draw_leaderboard` (constants
`min_row_h = 40`, `max_row_h = 76`, `spacing = 8`): for `n > 0`,
`row_h = min(max_row_h, max(min_row_h, (available_height - (n-1)*spacing) // n))`;
the spacing is the fixed constant `8`; for `n = 0`, `row_h = max_row_h`. -/
def rowGeometry (n : ℕ) (available_height : ℤ) : ℤ × ℤ :=
  if 0 < n then
    (min 76 (max 40 ((available_height - ((n : ℤ) - 1) * 8).fdiv (n : ℤ))), 8)
  else (76, 8)

end Pygame

namespace WebApp

/-- Constant `FINISH_LINE = 100` from `app.py`. -/
def FINISH_LINE : Score := 100

/-- One roster row of the web app's `players` DataFrame after
`read_players` has coerced the `points` column to float and filled missing
names with the empty string. -/
structure Row where
  name : String
  points : Score
  avatar : String
deriving DecidableEq

/-- Function `read_players(csv_path)`: a missing file yields an empty DataFrame;
otherwise every record is kept, with
`points = to_numeric(..., errors="coerce").fillna(0)` (unparsable cell → 0)
and missing name/avatar cells filled with `""`.  No record is dropped. -/
def read_players (src : Option (List CsvRecord)) : List Row :=
  match src with
  | none => []
  | some rows => rows.map fun r => ⟨r.name, r.pts.getD 0, r.avatar⟩

/-- The row update of `bump_points`: rows whose stripped name equals the
stripped `player_name` get `points = (points + delta).clip(lower=0)`; other
rows are untouched. -/
def bumpRow (player_name : String) (delta : Score) (r : Row) : Row :=
  if pyStrip r.name = pyStrip player_name then
    { r with points := max 0 (r.points + delta) }
  else r

/-- Function `bump_points(player_name, delta)`: no-op on an empty DataFrame
(`df.empty`) and when no row matches (`not mask.any()`); otherwise update
every matching row.  The session-state write and sort freeze timestamp are
outside the data model. -/
def bump_points (player_name : String) (delta : Score) (df : List Row) : List Row :=
  if df = [] then df
  else if ¬ df.any (fun r => pyStrip r.name = pyStrip player_name) then df
  else df.map (bumpRow player_name delta)

/-- The comparison of `df.sort_values(["points", "name"],
ascending=[False, True])`: points descending, ties by name ascending —
case-sensitively (the names were already stripped by `get_leaderboard_df`). -/
def webLeB (p q : Row) : Bool :=
  decide (q.points < p.points) ||
    (decide (p.points = q.points) && charListLe p.name.data q.name.data)

/-- Propositional form of `webLeB`. -/
def webLe (p q : Row) : Prop := webLeB p q = true

instance : DecidableRel webLe := fun p q => by unfold webLe; infer_instance

/-- The live-resort branch of `get_leaderboard_df` (live sort on, freeze
expired): coerce points, strip names, then
`df.sort_values(["points", "name"], ascending=[False, True])`.
pandas leaves the order of rows with fully equal sort keys unspecified
(default `quicksort`); the sort is modelled as the stable sort on the same
key.  The frozen / fixed-order branches replay a previously stored order and
are not part of the ranking rule. -/
def get_leaderboard_df (df : List Row) : List Row :=
  List.insertionSort webLe (df.map fun r => { r with name := pyStrip r.name })

/-- The per-lane progress of `race_track`:
`progress = max(0.0, min(1.0, pts / FINISH_LINE))`. -/
def race_progress (pts : Score) : Score := max 0 (min 1 (pts / FINISH_LINE))

end WebApp

/-! ## Sorting infrastructure

Both rank comparators are total preorders; `List.insertionSort` on them is
the (unique) stable sort, matching Python's `sorted`.  The filter lemmas give
the stability property: the sublist of elements with any fixed sort key is
exactly the corresponding sublist of the input. -/

theorem filter_orderedInsert {α β : Type} [DecidableEq β] (r : α → α → Prop)
    [DecidableRel r] (key : α → β) (hrefl : ∀ a b, key a = key b → r a b)
    (a : α) (v : β) (m : List α) :
    (List.orderedInsert r a m).filter (fun x => decide (key x = v)) =
      if key a = v then a :: m.filter (fun x => decide (key x = v))
      else m.filter (fun x => decide (key x = v)) := by
  induction m with
  | nil =>
    simp only [List.orderedInsert, List.filter]
    by_cases hav : key a = v <;> simp [hav]
  | cons b m ih =>
    by_cases hab : r a b
    · rw [List.orderedInsert_of_le r m hab]
      by_cases hav : key a = v <;> simp [List.filter, hav]
    · have hbsplit : List.orderedInsert r a (b :: m) = b :: List.orderedInsert r a m := by
        simp [List.orderedInsert, hab]
      rw [hbsplit]
      by_cases hav : key a = v
      · have hbv : ¬ key b = v := by
          intro hbv
          exact hab (hrefl a b (hav.trans hbv.symm))
        simp [List.filter, hbv, hav, ih]
      · by_cases hbv : key b = v <;> simp [List.filter, hbv, hav, ih]

theorem filter_insertionSort {α β : Type} [DecidableEq β] (r : α → α → Prop)
    [DecidableRel r] (key : α → β) (hrefl : ∀ a b, key a = key b → r a b)
    (v : β) (l : List α) :
    (List.insertionSort r l).filter (fun x => decide (key x = v)) =
      l.filter (fun x => decide (key x = v)) := by
  induction l with
  | nil => rfl
  | cons a l ih =>
    rw [List.insertionSort, filter_orderedInsert r key hrefl a v]
    by_cases hav : key a = v <;> simp [List.filter, hav, ih]

namespace Pygame

/-- The sort key of `sort_for_leaderboard` up to order-equivalence:
points together with the lower-cased name. -/
def rankKey (p : Player) : Score × List Char := (p.points, pyLower p.name)

theorem rankLe_refl_of_key {p q : Player} (h : rankKey p = rankKey q) : rankLe p q := by
  have h1 : p.points = q.points := congrArg Prod.fst h
  have h2 : pyLower p.name = pyLower q.name := congrArg Prod.snd h
  simp [rankLe, rankLeB, h1, h2, charListLe_refl]

instance : IsTotal Player rankLe where
  total p q := by
    rcases lt_trichotomy p.points q.points with h | h | h
    · exact Or.inr (by simp [rankLe, rankLeB, h])
    · rcases charListLe_total (pyLower p.name) (pyLower q.name) with hc | hc
      · exact Or.inl (by simp [rankLe, rankLeB, h, hc])
      · exact Or.inr (by simp [rankLe, rankLeB, h.symm, hc])
    · exact Or.inl (by simp [rankLe, rankLeB, h])

instance : IsTrans Player rankLe where
  trans p q s hpq hqs := by
    simp only [rankLe, rankLeB, Bool.or_eq_true, Bool.and_eq_true,
      decide_eq_true_eq] at hpq hqs ⊢
    rcases hpq with h1 | ⟨h1, hc1⟩
    · rcases hqs with h2 | ⟨h2, _⟩
      · exact Or.inl (lt_trans h2 h1)
      · exact Or.inl (h2 ▸ h1)
    · rcases hqs with h2 | ⟨h2, hc2⟩
      · exact Or.inl (h1 ▸ h2)
      · exact Or.inr ⟨h1.trans h2, charListLe_trans hc1 hc2⟩

end Pygame

namespace WebApp

/-- The sort key of the web leaderboard sort: points together with the
(already stripped) name. -/
def webKey (r : Row) : Score × List Char := (r.points, r.name.data)

theorem webLe_refl_of_key {p q : Row} (h : webKey p = webKey q) : webLe p q := by
  have h1 : p.points = q.points := congrArg Prod.fst h
  have h2 : p.name.data = q.name.data := congrArg Prod.snd h
  simp [webLe, webLeB, h1, h2, charListLe_refl]

instance : IsTotal Row webLe where
  total p q := by
    rcases lt_trichotomy p.points q.points with h | h | h
    · exact Or.inr (by simp [webLe, webLeB, h])
    · rcases charListLe_total p.name.data q.name.data with hc | hc
      · exact Or.inl (by simp [webLe, webLeB, h, hc])
      · exact Or.inr (by simp [webLe, webLeB, h.symm, hc])
    · exact Or.inl (by simp [webLe, webLeB, h])

instance : IsTrans Row webLe where
  trans p q s hpq hqs := by
    simp only [webLe, webLeB, Bool.or_eq_true, Bool.and_eq_true,
      decide_eq_true_eq] at hpq hqs ⊢
    rcases hpq with h1 | ⟨h1, hc1⟩
    · rcases hqs with h2 | ⟨h2, _⟩
      · exact Or.inl (lt_trans h2 h1)
      · exact Or.inl (h2 ▸ h1)
    · rcases hqs with h2 | ⟨h2, hc2⟩
      · exact Or.inl (h1 ▸ h2)
      · exact Or.inr ⟨h1.trans h2, charListLe_trans hc1 hc2⟩

end WebApp

/-! ## Claim C1 — ranking -/

/-- Modelled from the spec (for comparison with the code): the spec's ranking
order — score descending, ties by case-insensitively compared name
ascending. -/
def specCiRankLe (p q : WebApp.Row) : Prop :=
  q.points < p.points ∨
    (p.points = q.points ∧ charListLe (pyLower p.name) (pyLower q.name) = true)

instance : DecidableRel specCiRankLe := fun p q => by unfold specCiRankLe; infer_instance

/-- C1, counterexample: on the roster `[("a", 10), ("B", 10)]` the web
leaderboard sort (`get_leaderboard_df`) returns `[("B", 10), ("a", 10)]` —
ties are broken by case-sensitive name comparison — which is not ordered by
the claimed case-insensitive tie-break rule (`"b"` is not ≤ `"a"`). -/
theorem C1_web_tiebreak_counterexample :
    WebApp.get_leaderboard_df [⟨"a", 10, ""⟩, ⟨"B", 10, ""⟩] =
      [⟨"B", 10, ""⟩, ⟨"a", 10, ""⟩] ∧
    ¬ List.Sorted specCiRankLe
        (WebApp.get_leaderboard_df [⟨"a", 10, ""⟩, ⟨"B", 10, ""⟩]) := by
  have heq : WebApp.get_leaderboard_df [⟨"a", 10, ""⟩, ⟨"B", 10, ""⟩] =
      [⟨"B", 10, ""⟩, ⟨"a", 10, ""⟩] := by decide
  refine ⟨heq, ?_⟩
  rw [heq]
  intro h
  have h2 : specCiRankLe ⟨"B", 10, ""⟩ ⟨"a", 10, ""⟩ :=
    List.rel_of_sorted_cons h _ (by simp)
  rcases h2 with h2 | ⟨-, h2⟩
  · exact absurd h2 (by decide)
  · exact absurd h2 (by decide)

/-- C1, amended: the Pygame ranking `sort_for_leaderboard` is a permutation
of the roster, sorted by score descending with ties by case-insensitive name
ascending, and stable (for every sort key, the players with that key appear
in original roster order); being a pure function, repeated calls on an
unchanged roster trivially agree.  The web leaderboard sort is likewise a
sorted permutation (of the name-stripped roster) and stable on its key, but
its tie-break compares names case-sensitively. -/
theorem C1_rank :
    (∀ sb : Pygame.Scoreboard,
      (Pygame.sort_for_leaderboard sb).Perm sb.players ∧
      List.Sorted Pygame.rankLe (Pygame.sort_for_leaderboard sb) ∧
      (∀ k : Score × List Char,
        (Pygame.sort_for_leaderboard sb).filter (fun p => decide (Pygame.rankKey p = k)) =
          sb.players.filter (fun p => decide (Pygame.rankKey p = k)))) ∧
    (∀ df : List WebApp.Row,
      (WebApp.get_leaderboard_df df).Perm
        (df.map fun r => { r with name := pyStrip r.name }) ∧
      List.Sorted WebApp.webLe (WebApp.get_leaderboard_df df) ∧
      (∀ k : Score × List Char,
        (WebApp.get_leaderboard_df df).filter (fun r => decide (WebApp.webKey r = k)) =
          (df.map fun r => { r with name := pyStrip r.name }).filter
            (fun r => decide (WebApp.webKey r = k)))) := by
  constructor
  · intro sb
    refine ⟨List.perm_insertionSort _ _, List.sorted_insertionSort _ _, fun k => ?_⟩
    exact filter_insertionSort Pygame.rankLe Pygame.rankKey
      (fun _ _ h => Pygame.rankLe_refl_of_key h) k sb.players
  · intro df
    refine ⟨List.perm_insertionSort _ _, List.sorted_insertionSort _ _, fun k => ?_⟩
    exact filter_insertionSort WebApp.webLe WebApp.webKey
      (fun _ _ h => WebApp.webLe_refl_of_key h) k _

/-! ## Claim C7 — reset -/

/-- C7: `reset_animation` sets every player's displayed progress
(`progress_current`) to `0` unconditionally, and leaves the progress target,
the score and the name of every player unchanged. -/
theorem C7_reset (sb : Pygame.Scoreboard) :
    (Pygame.reset_animation sb).players.map Pygame.Player.progress_current =
      List.replicate sb.players.length 0 ∧
    (Pygame.reset_animation sb).players.map Pygame.Player.progress_target =
      sb.players.map Pygame.Player.progress_target ∧
    (Pygame.reset_animation sb).players.map Pygame.Player.points =
      sb.players.map Pygame.Player.points ∧
    (Pygame.reset_animation sb).players.map Pygame.Player.name =
      sb.players.map Pygame.Player.name := by
  refine ⟨?_, ?_, ?_, ?_⟩ <;>
    simp [Pygame.reset_animation, List.map_map, Function.comp_def]

/-! ## Claim C8 — missing roster source -/

/-- C8, counterexample: in the Pygame app, loading from a missing file with a
non-empty prior roster leaves the roster non-empty (the early `return` keeps
`self.players` untouched), so the roster neither becomes nor remains
empty. -/
theorem C8_missing_keeps_roster_counterexample :
    Pygame.load_from_csv none ⟨[Pygame.mkPlayer "Ana" 5 ""]⟩ =
      ⟨[Pygame.mkPlayer "Ana" 5 ""]⟩ ∧
    (Pygame.load_from_csv none ⟨[Pygame.mkPlayer "Ana" 5 ""]⟩).players ≠ [] := by
  exact ⟨rfl, by simp [Pygame.load_from_csv]⟩

/-- C8, amended: loading from a missing roster source is recovered locally in
both apps — the call returns normally (the embedded functions are total).  In
the web app the roster becomes empty; in the Pygame app the roster is left
exactly as it was (so it remains empty only if it already was). -/
theorem C8_missing_source :
    (∀ sb : Pygame.Scoreboard, Pygame.load_from_csv none sb = sb) ∧
    WebApp.read_players none = [] :=
  ⟨fun _ => rfl, rfl⟩

/-! ## Claim C9 — animation step fixed point -/

/-- C9: one `update_animation` step is the identity when `dt = 0`, and is the
identity on any scoreboard whose players already have
`progress_current = progress_target`. -/
theorem C9_step_identity :
    (∀ sb : Pygame.Scoreboard, Pygame.update_animation 0 sb = sb) ∧
    (∀ (dt : Score) (sb : Pygame.Scoreboard),
      (∀ p ∈ sb.players, p.progress_current = p.progress_target) →
      Pygame.update_animation dt sb = sb) := by
  constructor
  · intro sb
    cases sb with
    | mk players =>
      simp only [Pygame.update_animation, Pygame.stepCurrent, Pygame.Scoreboard.mk.injEq]
      have hmin : min (1 : ℚ) (Pygame.EASING_SPEED * 0) = 0 := by
        norm_num [Pygame.EASING_SPEED]
      refine List.map_id'' (fun p => ?_) players
      rw [hmin, mul_zero, add_zero]
  · intro dt sb h
    cases sb with
    | mk players =>
      simp only [Pygame.update_animation, Pygame.Scoreboard.mk.injEq]
      calc players.map (fun p =>
              { p with progress_current :=
                  Pygame.stepCurrent p.progress_target p.progress_current dt })
          = players.map id := by
            refine List.map_congr_left (fun p hp => ?_)
            have hc := h p hp
            cases p with
            | mk nm pts av tgt cur =>
              simp only at hc
              simp [Pygame.stepCurrent, hc]
        _ = players := List.map_id players

/-- C9, witness: a concrete scoreboard whose player sits exactly at its
target is unchanged by a step with `dt = 2`. -/
theorem C9_step_identity_witness :
    Pygame.update_animation 2 ⟨[⟨"Ana", 50, "", 1/2, 1/2⟩]⟩ =
      ⟨[⟨"Ana", 50, "", 1/2, 1/2⟩]⟩ :=
  C9_step_identity.2 2 ⟨[⟨"Ana", 50, "", 1/2, 1/2⟩]⟩ (by
    intro p hp
    simp only [List.mem_singleton] at hp
    subst hp
    rfl)

/-! ## Claim C10 — one bump updates all rows with a matching name -/

theorem bump_points_eq_map (name : String) (delta : Score) (df : List WebApp.Row) :
    WebApp.bump_points name delta df = df.map (WebApp.bumpRow name delta) := by
  unfold WebApp.bump_points
  by_cases h1 : df = []
  · simp [h1]
  · rw [if_neg h1]
    by_cases h2 : df.any (fun r => decide (pyStrip r.name = pyStrip name)) = true
    · rw [if_neg (by simp [h2])]
    · rw [if_pos (by simp [h2])]
      have hall : ∀ r ∈ df, WebApp.bumpRow name delta r = r := by
        intro r hr
        simp only [List.any_eq_true, decide_eq_true_eq, not_exists, not_and] at h2
        simp [WebApp.bumpRow, h2 r hr]
      conv_lhs => rw [← List.map_id df]
      exact List.map_congr_left fun r hr => (hall r hr).symm

/-- C10: a single `bump_points` call rewrites the roster positionwise through
`bumpRow`: at every index, a row whose stripped name matches gets
`points = max 0 (points + delta)` (each row independently clamped at 0) and
every other row is returned unchanged — so all matching rows are updated,
not only the first. -/
theorem C10_bump_updates_all_matches (name : String) (delta : Score)
    (df : List WebApp.Row) (i : ℕ) :
    (WebApp.bump_points name delta df)[i]? =
      (df[i]?).map fun r =>
        if pyStrip r.name = pyStrip name then
          { r with points := max 0 (r.points + delta) }
        else r := by
  rw [bump_points_eq_map, List.getElem?_map]
  rfl

/-! ## Claim C5 — loading malformed records -/

/-- C5, counterexample: the web loader `read_players` does not exclude
records whose name is empty or whitespace-only — the record is kept (with
its unparsable score zeroed), it is merely the Pygame loader that drops
it. -/
theorem C5_web_keeps_blank_counterexample :
    WebApp.read_players (some [⟨"   ", none, ""⟩]) = [⟨"   ", 0, ""⟩] ∧
    pyStrip "   " = "" ∧
    WebApp.read_players (some [⟨"   ", none, ""⟩]) ≠ [] := by
  refine ⟨rfl, by decide, by simp [WebApp.read_players]⟩

/-- C5, amended: both loaders are total (never raise on malformed input) and
assign score `0` to every record whose score cell fails to parse.  The
Pygame loader (`load_from_csv`) additionally excludes every record whose
name is empty or whitespace-only and keeps the remaining records in input
order; the web loader (`read_players`) keeps all records — including
blank-name ones — in input order.  The spec's scenario (a blank-name record
plus an unparsable score) holds for the Pygame loader. -/
theorem C5_load :
    (∀ rows : List CsvRecord,
      Pygame.parseRows rows =
        (rows.filter fun r => !decide (pyStrip r.name = "")).map
          (fun r => Pygame.mkPlayer (pyStrip r.name) (r.pts.getD 0) (pyStrip r.avatar))) ∧
    (∀ rows : List CsvRecord,
      WebApp.read_players (some rows) =
        rows.map fun r => ⟨r.name, r.pts.getD 0, r.avatar⟩) ∧
    Pygame.load_from_csv (some [⟨" ", some 5, ""⟩, ⟨"Ann", none, ""⟩]) ⟨[]⟩ =
      ⟨[Pygame.mkPlayer "Ann" 0 ""]⟩ := by
  refine ⟨?_, fun rows => rfl, by decide⟩
  intro rows
  induction rows with
  | nil => rfl
  | cons r rest ih =>
    by_cases h : pyStrip r.name = ""
    · simp [Pygame.parseRows, List.filter, h, ih]
    · simp [Pygame.parseRows, List.filter, h, ih]

/-! ## Claim C3 — bump clamps at zero -/

/-- C3, counterexample: in the Pygame app a minus-button click runs
`player.points += delta` with no clamp, so one decrement from score `0`
yields score `-1 < 0 = max(0, 0 + (-1))`. -/
theorem C3_pygame_negative_counterexample :
    (Pygame.handle_click ⟨[⟨"A", 0, "", 0, 0⟩]⟩ 0 (-1)).players.map
        Pygame.Player.points = [-1] ∧
    ¬ (0 : Score) ≤ -1 ∧ max (0 : Score) (0 + (-1)) = 0 := by
  refine ⟨?_, by norm_num, by norm_num⟩
  simp [Pygame.handle_click, Pygame.bumpAt, Pygame.set_target_progresses]

/-- C3, amended: the web `bump_points` behaves as claimed — it rewrites the
roster through `bumpRow`, i.e. sets every row whose stripped name matches
the trimmed argument (case-sensitively) to `max 0 (points + delta)`, is a
no-op when no row matches, and after a bump every row is either clamped
nonnegative or untouched; hence iterated `bump_points name (-1)` keeps a
nonnegative roster nonnegative.  The Pygame minus-button handler instead
adds the delta without clamping (see the counterexample), so there scores
can go below 0. -/
theorem C3_bump :
    (∀ (name : String) (delta : Score) (df : List WebApp.Row),
      (∀ r ∈ df, pyStrip r.name ≠ pyStrip name) →
      WebApp.bump_points name delta df = df) ∧
    (∀ (name : String) (delta : Score) (df : List WebApp.Row) (r : WebApp.Row),
      r ∈ WebApp.bump_points name delta df → 0 ≤ r.points ∨ r ∈ df) ∧
    (∀ (name : String) (k : ℕ) (df : List WebApp.Row),
      (∀ r ∈ df, 0 ≤ r.points) →
      ∀ r ∈ (fun d => WebApp.bump_points name (-1) d)^[k] df, 0 ≤ r.points) := by
  refine ⟨?_, ?_, ?_⟩
  · intro name delta df hnone
    rw [bump_points_eq_map]
    conv_rhs => rw [← List.map_id df]
    refine List.map_congr_left fun r hr => ?_
    simp [WebApp.bumpRow, hnone r hr]
  · intro name delta df r hr
    rw [bump_points_eq_map] at hr
    rcases List.mem_map.mp hr with ⟨r0, hr0, heq⟩
    by_cases hm : pyStrip r0.name = pyStrip name
    · left
      rw [← heq]
      simp [WebApp.bumpRow, hm]
    · right
      rw [← heq]
      simpa [WebApp.bumpRow, hm] using hr0
  · intro name k
    induction k with
    | zero => intro df h r hr; exact h r hr
    | succ k ih =>
      intro df h r hr
      rw [Function.iterate_succ_apply] at hr
      refine ih (WebApp.bump_points name (-1) df) ?_ r hr
      intro s hs
      rcases List.mem_map.mp (bump_points_eq_map name (-1) df ▸ hs) with ⟨s0, hs0, hseq⟩
      by_cases hm : pyStrip s0.name = pyStrip name
      · rw [← hseq]; simp [WebApp.bumpRow, hm]
      · rw [← hseq]; simpa [WebApp.bumpRow, hm] using h s0 hs0

/-- C3, witness: bumping a name that matches no roster row is a no-op, at a
concrete roster. -/
theorem C3_bump_witness :
    WebApp.bump_points "Zed" 5 [⟨"Ana", 1, ""⟩] = [⟨"Ana", 1, ""⟩] :=
  C3_bump.1 "Zed" 5 [⟨"Ana", 1, ""⟩] (by
    intro r hr
    simp only [List.mem_singleton] at hr
    subst hr
    decide)

/-! ## Claim C4 — progress target clamped to [0,1] -/

/-- C4: the Pygame `set_target_progresses` computes `points / 100` with no
clamp, so bumping a player from 40 to 110 yields `progress_target = 1.1`,
not the claimed `clamp(110/100, 0, 1) = 1.0` — contradicting the code's own
comment that the race progress target lies in `[0..1]`.  The web app's
`race_track` does clamp: `max(0.0, min(1.0, pts / FINISH_LINE))` equals `1`
at 110 points and lies in `[0,1]` for every score. -/
theorem C4_target_not_clamped :
    (Pygame.handle_click ⟨[⟨"A", 40, "", 0, 0⟩]⟩ 0 70).players.map
        Pygame.Player.progress_target = [11/10] ∧
    (11/10 : Score) ≠ 1 ∧ (1 : Score) < 11/10 ∧
    WebApp.race_progress 110 = 1 ∧
    (∀ pts : Score, 0 ≤ WebApp.race_progress pts ∧ WebApp.race_progress pts ≤ 1) := by
  refine ⟨?_, by norm_num, by norm_num, ?_, ?_⟩
  · simp [Pygame.handle_click, Pygame.bumpAt, Pygame.set_target_progresses, Pygame.MAX_PTS]
    norm_num
  · have h : (110 : Score) / WebApp.FINISH_LINE = 11/10 := by
      norm_num [WebApp.FINISH_LINE]
    rw [WebApp.race_progress, h]
    rw [min_eq_left (by norm_num)]
    exact max_eq_right (by norm_num)
  · intro pts
    refine ⟨le_max_left 0 _, ?_⟩
    refine max_le (by norm_num) (min_le_left 1 _)

/-! ## Claim C2 — animation convergence -/

theorem easing_factor_nonneg {dt : Score} (h : 0 ≤ dt) :
    0 ≤ min 1 (Pygame.EASING_SPEED * dt) :=
  le_min (by norm_num) (mul_nonneg (by norm_num [Pygame.EASING_SPEED]) h)

theorem easing_factor_pos {dt : Score} (h : 0 < dt) :
    0 < min 1 (Pygame.EASING_SPEED * dt) :=
  lt_min (by norm_num) (mul_pos (by norm_num [Pygame.EASING_SPEED]) h)

/-- One smoothing step shrinks the gap to the target by the factor
`1 - min 1 (EASING_SPEED * dt)`. -/
theorem stepCurrent_gap (t c dt : Score) :
    t - Pygame.stepCurrent t c dt =
      (t - c) * (1 - min 1 (Pygame.EASING_SPEED * dt)) := by
  unfold Pygame.stepCurrent
  ring

theorem iterate_stepCurrent_gap (t dt : Score) (n : ℕ) (c : Score) :
    t - (fun x => Pygame.stepCurrent t x dt)^[n] c =
      (t - c) * (1 - min 1 (Pygame.EASING_SPEED * dt)) ^ n := by
  induction n generalizing c with
  | zero => simp
  | succ n ih =>
    rw [Function.iterate_succ_apply, ih, stepCurrent_gap]
    ring

theorem stepCurrent_between_le {t c dt : Score} (hdt : 0 ≤ dt) (h : c ≤ t) :
    c ≤ Pygame.stepCurrent t c dt ∧ Pygame.stepCurrent t c dt ≤ t := by
  have hf0 := easing_factor_nonneg hdt
  have hf1 : min 1 (Pygame.EASING_SPEED * dt) ≤ 1 := min_le_left _ _
  unfold Pygame.stepCurrent
  constructor <;> nlinarith

theorem stepCurrent_between_ge {t c dt : Score} (hdt : 0 ≤ dt) (h : t ≤ c) :
    t ≤ Pygame.stepCurrent t c dt ∧ Pygame.stepCurrent t c dt ≤ c := by
  have hf0 := easing_factor_nonneg hdt
  have hf1 : min 1 (Pygame.EASING_SPEED * dt) ≤ 1 := min_le_left _ _
  unfold Pygame.stepCurrent
  constructor <;> nlinarith

/-- C2, counterexample: with a non-negative score of 110 (finish line 100),
the Pygame target recomputation gives `progress_target = 1.1`, and a single
animation step with `dt = 1` moves `progress_current` from 0 to `1.1 > 1` —
the displayed progress does not remain in `[0,1]`. -/
theorem C2_exceeds_one_counterexample :
    (0 : Score) ≤ 110 ∧
    (Pygame.update_animation 1 (Pygame.set_target_progresses
        ⟨[⟨"A", 110, "", 0, 0⟩]⟩)).players.map Pygame.Player.progress_current
      = [11/10] ∧
    (1 : Score) < 11/10 := by
  refine ⟨by norm_num, ?_, by norm_num⟩
  simp [Pygame.set_target_progresses, Pygame.update_animation, Pygame.stepCurrent,
    Pygame.MAX_PTS, Pygame.EASING_SPEED]
  norm_num [min_def]

/-- C2, amended (restricted to scores at most the finish line, as the
counterexample forces): after target recomputation a player with
`0 ≤ points ≤ 100` has `progress_target ∈ [0,1]`; for `dt ≥ 0` each
animation step moves `progress_current` monotonically toward
`progress_target` without overstepping it, and preserves `[0,1]` when the
target is in `[0,1]`; and for any fixed `dt > 0`, iterated steps bring
`progress_current` within any `ε > 0` of the target after some bound `N` of
steps. -/
theorem C2_animation :
    (∀ sb : Pygame.Scoreboard, ∀ p ∈ (Pygame.set_target_progresses sb).players,
      0 ≤ p.points → p.points ≤ Pygame.MAX_PTS →
      0 ≤ p.progress_target ∧ p.progress_target ≤ 1) ∧
    (∀ t c dt : Score, 0 ≤ dt →
      (c ≤ t → c ≤ Pygame.stepCurrent t c dt ∧ Pygame.stepCurrent t c dt ≤ t) ∧
      (t ≤ c → t ≤ Pygame.stepCurrent t c dt ∧ Pygame.stepCurrent t c dt ≤ c)) ∧
    (∀ t c dt : Score, 0 ≤ dt → 0 ≤ t → t ≤ 1 → 0 ≤ c → c ≤ 1 →
      0 ≤ Pygame.stepCurrent t c dt ∧ Pygame.stepCurrent t c dt ≤ 1) ∧
    (∀ t c dt : Score, 0 < dt → ∀ ε : Score, 0 < ε →
      ∃ N : ℕ, ∀ n : ℕ, N ≤ n →
        |t - (fun x => Pygame.stepCurrent t x dt)^[n] c| ≤ ε) := by
  refine ⟨?_, ?_, ?_, ?_⟩
  · intro sb p hp h0 h1
    by_cases hemp : sb.players = []
    · simp [Pygame.set_target_progresses, hemp] at hp
    · simp only [Pygame.set_target_progresses, if_neg hemp, List.mem_map] at hp
      rcases hp with ⟨p0, _, rfl⟩
      simp only [Pygame.MAX_PTS] at h0 h1 ⊢
      rw [if_neg (by norm_num)]
      constructor
      · exact div_nonneg h0 (by norm_num)
      · rw [div_le_one (by norm_num)]
        exact h1
  · intro t c dt hdt
    exact ⟨stepCurrent_between_le hdt, stepCurrent_between_ge hdt⟩
  · intro t c dt hdt h0t h1t h0c h1c
    rcases le_total c t with h | h
    · have hb := stepCurrent_between_le hdt h
      exact ⟨le_trans h0c hb.1, le_trans hb.2 h1t⟩
    · have hb := stepCurrent_between_ge hdt h
      exact ⟨le_trans h0t hb.1, le_trans hb.2 h1c⟩
  · intro t c dt hdt ε hε
    have hf0 : 0 < min 1 (Pygame.EASING_SPEED * dt) := easing_factor_pos hdt
    have hf1 : min 1 (Pygame.EASING_SPEED * dt) ≤ 1 := min_le_left _ _
    have hy0 : 0 ≤ 1 - min 1 (Pygame.EASING_SPEED * dt) := by linarith
    have hy1 : 1 - min 1 (Pygame.EASING_SPEED * dt) < 1 := by linarith
    have hD : 0 < |t - c| + 1 := by positivity
    obtain ⟨N, hN⟩ := exists_pow_lt_of_lt_one (div_pos hε hD) hy1
    refine ⟨N, fun n hn => ?_⟩
    rw [iterate_stepCurrent_gap t dt n c, abs_mul, abs_pow, abs_of_nonneg hy0]
    have h2 : (1 - min 1 (Pygame.EASING_SPEED * dt)) ^ n ≤
        (1 - min 1 (Pygame.EASING_SPEED * dt)) ^ N :=
      pow_le_pow_of_le_one hy0 (by linarith) hn
    have h3 : (1 - min 1 (Pygame.EASING_SPEED * dt)) ^ n ≤ ε / (|t - c| + 1) :=
      le_of_lt (lt_of_le_of_lt h2 hN)
    calc |t - c| * (1 - min 1 (Pygame.EASING_SPEED * dt)) ^ n
        ≤ |t - c| * (ε / (|t - c| + 1)) :=
          mul_le_mul_of_nonneg_left h3 (abs_nonneg _)
      _ ≤ ε := by
          rw [mul_comm, div_mul_eq_mul_div, div_le_iff₀ hD]
          nlinarith [abs_nonneg (t - c), hε.le]

/-- C2, witness: one step with `dt = 1` from displayed progress 0 toward
target 1 stays within `[0,1]`. -/
theorem C2_animation_witness :
    0 ≤ Pygame.stepCurrent 1 0 1 ∧ Pygame.stepCurrent 1 0 1 ≤ 1 :=
  C2_animation.2.2.1 1 0 1 (by norm_num) (by norm_num) (by norm_num)
    (by norm_num) (by norm_num)

/-! ## Claim C6 — layout geometry -/

/-- The clamped ideal height fits together with the minimum gap `g0`
whenever the minimum-sized configuration fits at all: the source starts from
the floor-divided ideal height `(A - (n-1)*g0) // n` and clamps it to
`[lo, hi]`. -/
theorem clamped_height_fits (n : ℕ) (hn : 1 ≤ n) (A lo hi g0 : ℤ) (hlohi : lo ≤ hi)
    (base : (n : ℤ) * lo + ((n : ℤ) - 1) * g0 ≤ A) :
    (n : ℤ) * min hi (max lo ((A - ((n : ℤ) - 1) * g0).fdiv (n : ℤ))) +
      ((n : ℤ) - 1) * g0 ≤ A := by
  have hnz : (0 : ℤ) < (n : ℤ) := Int.natCast_pos.mpr hn
  set d := (A - ((n : ℤ) - 1) * g0).fdiv (n : ℤ) with hd
  have hdiv : (n : ℤ) * d ≤ A - ((n : ℤ) - 1) * g0 := by
    rw [hd, Int.fdiv_eq_ediv _ hnz.le]
    have h1 := Int.ediv_add_emod (A - ((n : ℤ) - 1) * g0) (n : ℤ)
    have h2 := Int.emod_nonneg (A - ((n : ℤ) - 1) * g0) (ne_of_gt hnz)
    linarith
  rcases le_or_lt lo d with hld | hld
  · have hle : min hi (max lo d) ≤ d :=
      le_trans (min_le_right _ _) (le_of_eq (max_eq_right hld))
    have hmul : (n : ℤ) * min hi (max lo d) ≤ (n : ℤ) * d :=
      mul_le_mul_of_nonneg_left hle hnz.le
    linarith
  · rw [max_eq_left hld.le, min_eq_right hlohi]
    exact base

/-- Once `n · H` plus minimum gaps fits, the clamped computed gap
`min 18 (max 6 ((A - n*H) // (n-1)))` also fits (roster of at least two). -/
theorem lane_gap_fits (n : ℕ) (hn2 : 2 ≤ n) (A H : ℤ)
    (K : (n : ℤ) * H + ((n : ℤ) - 1) * 6 ≤ A) :
    (n : ℤ) * H + ((n : ℤ) - 1) *
      min 18 (max 6 ((A - (n : ℤ) * H).fdiv (max 1 ((n : ℤ) - 1)))) ≤ A := by
  have hn2z : (2 : ℤ) ≤ (n : ℤ) := by exact_mod_cast hn2
  have hmpos : (0 : ℤ) < (n : ℤ) - 1 := by linarith
  have hm : max 1 ((n : ℤ) - 1) = (n : ℤ) - 1 := max_eq_right (by linarith)
  set e := (A - (n : ℤ) * H).fdiv (max 1 ((n : ℤ) - 1)) with he
  have hdiv : ((n : ℤ) - 1) * e ≤ A - (n : ℤ) * H := by
    rw [he, hm, Int.fdiv_eq_ediv _ hmpos.le]
    have h1 := Int.ediv_add_emod (A - (n : ℤ) * H) ((n : ℤ) - 1)
    have h2 := Int.emod_nonneg (A - (n : ℤ) * H) (ne_of_gt hmpos)
    linarith
  rcases le_or_lt e 6 with he6 | he6
  · rw [max_eq_left he6, min_eq_right (by norm_num)]
    exact K
  · have hgle : min 18 (max 6 e) ≤ e :=
      le_trans (min_le_right _ _) (le_of_eq (max_eq_right he6.le))
    have hmul : ((n : ℤ) - 1) * min 18 (max 6 e) ≤ ((n : ℤ) - 1) * e :=
      mul_le_mul_of_nonneg_left hgle hmpos.le
    linarith

/-- C6: for any roster size `n ≥ 1` and any available height, the lane
geometry returns a height in `[40, 90]` and a gap in `[6, 18]`, and the row
geometry a height in `[40, 76]` with its fixed spacing `8`; whenever some
in-bounds height and gap fit in the available height, the computed geometry
fits too; with zero players both return the maximum height and gap. -/
theorem C6_geometry :
    (∀ (n : ℕ) (A : ℤ), 1 ≤ n →
      (40 ≤ (Pygame.laneGeometry n A).1 ∧ (Pygame.laneGeometry n A).1 ≤ 90 ∧
       6 ≤ (Pygame.laneGeometry n A).2 ∧ (Pygame.laneGeometry n A).2 ≤ 18) ∧
      ((∃ h g : ℤ, 40 ≤ h ∧ h ≤ 90 ∧ 6 ≤ g ∧ g ≤ 18 ∧
          (n : ℤ) * h + ((n : ℤ) - 1) * g ≤ A) →
        (n : ℤ) * (Pygame.laneGeometry n A).1 +
          ((n : ℤ) - 1) * (Pygame.laneGeometry n A).2 ≤ A)) ∧
    (∀ (n : ℕ) (A : ℤ), 1 ≤ n →
      (40 ≤ (Pygame.rowGeometry n A).1 ∧ (Pygame.rowGeometry n A).1 ≤ 76 ∧
       (Pygame.rowGeometry n A).2 = 8) ∧
      ((∃ h : ℤ, 40 ≤ h ∧ h ≤ 76 ∧ (n : ℤ) * h + ((n : ℤ) - 1) * 8 ≤ A) →
        (n : ℤ) * (Pygame.rowGeometry n A).1 +
          ((n : ℤ) - 1) * (Pygame.rowGeometry n A).2 ≤ A)) ∧
    (∀ A : ℤ, Pygame.laneGeometry 0 A = (90, 18) ∧ Pygame.rowGeometry 0 A = (76, 8)) := by
  refine ⟨?_, ?_, fun A => ⟨rfl, rfl⟩⟩
  · intro n A hn
    have hnpos : 0 < n := hn
    have hn1 : (1 : ℤ) ≤ (n : ℤ) := by exact_mod_cast hn
    unfold Pygame.laneGeometry
    rw [if_pos hnpos]
    simp only
    constructor
    · refine ⟨le_min (by norm_num) (le_max_left 40 _), min_le_left _ _,
        le_min (by norm_num) (le_max_left 6 _), min_le_left _ _⟩
    · rintro ⟨h, g, h40, h90, hg6, hg18, hfit⟩
      have hmul1 : (n : ℤ) * 40 ≤ (n : ℤ) * h :=
        mul_le_mul_of_nonneg_left h40 (by linarith)
      have hmul2 : ((n : ℤ) - 1) * 6 ≤ ((n : ℤ) - 1) * g :=
        mul_le_mul_of_nonneg_left hg6 (by linarith)
      have base : (n : ℤ) * 40 + ((n : ℤ) - 1) * 6 ≤ A := by linarith
      have K := clamped_height_fits n hn A 40 90 6 (by norm_num) base
      rcases eq_or_lt_of_le hn with h1 | h2
      · have hz : ((n : ℤ) - 1) = 0 := by
          rw [← h1]
          norm_num
        rw [hz] at K ⊢
        simpa using K
      · exact lane_gap_fits n h2 A _ K
  · intro n A hn
    have hnpos : 0 < n := hn
    have hn1 : (1 : ℤ) ≤ (n : ℤ) := by exact_mod_cast hn
    unfold Pygame.rowGeometry
    rw [if_pos hnpos]
    simp only
    constructor
    · exact ⟨le_min (by norm_num) (le_max_left 40 _), min_le_left _ _, trivial⟩
    · rintro ⟨h, h40, h76, hfit⟩
      have hmul1 : (n : ℤ) * 40 ≤ (n : ℤ) * h :=
        mul_le_mul_of_nonneg_left h40 (by linarith)
      have base : (n : ℤ) * 40 + ((n : ℤ) - 1) * 8 ≤ A := by linarith
      exact clamped_height_fits n hn A 40 76 8 (by norm_num) base

/-- C6, witness: with 3 players and 570 pixels available the lane geometry
is in bounds and fits. -/
theorem C6_geometry_witness :
    40 ≤ (Pygame.laneGeometry 3 570).1 ∧
    ((3 : ℕ) : ℤ) * (Pygame.laneGeometry 3 570).1 +
      (((3 : ℕ) : ℤ) - 1) * (Pygame.laneGeometry 3 570).2 ≤ 570 := by
  have h := C6_geometry.1 3 570 (by norm_num)
  exact ⟨h.1.1, h.2 ⟨40, 6, by norm_num⟩⟩

end VillaOlympics
